import Mathlib

/-!
Verification of the CacheToolsUtils caching library (CacheToolsUtils.py).

The library presents every cache as a Python MutableMapping: `__contains__`,
`__getitem__`, `__setitem__`, `__delitem__`.  We embed each cache class as a
record of four state-passing operations returning `Except Err _ × σ`: Python
exceptions become the `Err` sum (a `KeyError` is the NotFound of the spec),
and mutations performed before an exception is raised are kept in the
returned state, exactly as in Python where `self._x += 1` is not rolled back
by a later `raise`.

External collaborators (the builtin `dict`, `hashlib`, `Crypto.Cipher`,
`base64`) are modelled as follows: a `dict` is a function `κ → Option α`;
the SHA3 hashes and ciphers of `EncryptedCache` are parameters of the
embedding (`EncParams`) constrained only by the contracts the code relies
on; the `base64` encoders used by `AutoPrefixedCache` are implemented
byte-for-byte after the Python module.
-/

namespace CTU

/-- Python exception values relevant to the library: `KeyError` (NotFound),
`AssertionError` (failed `assert`), and any other `Exception`. -/
inductive Err where
  | keyError (msg : String)
  | assertionError (msg : String)
  | exn (msg : String)
deriving DecidableEq, Repr

/-- A cache object: the four MutableMapping operations of the library,
as state transformers.  The state is threaded even through errors, since
Python exceptions do not undo prior field mutations. -/
structure Cache (σ κ α : Type) where
  contains : κ → σ → Except Err Bool × σ
  get : κ → σ → Except Err α × σ
  set : κ → α → σ → Except Err Unit × σ
  del : κ → σ → Except Err Unit × σ

/-- The in-memory base store (Python `dict`, as used by `DictCache`):
lookup, overwrite on set, `KeyError` on a missing get/del. -/
def dictCache (κ α : Type) [DecidableEq κ] : Cache (κ → Option α) κ α where
  contains k s := (.ok (s k).isSome, s)
  get k s :=
    match s k with
    | some v => (.ok v, s)
    | none => (.error (.keyError "KeyError"), s)
  set k v s := (.ok (), fun q => if q = k then some v else s q)
  del k s :=
    match s k with
    | some _ => (.ok (), fun q => if q = k then none else s q)
    | none => (.error (.keyError "KeyError"), s)

/-- `_KeyMutMapMix`: forward every operation to the inner cache after
applying the key filter `_key` (here `f`). -/
def keyCache (f : κ → κ2) (c : Cache σ κ2 α) : Cache σ κ α where
  contains k s := c.contains (f k) s
  get k s := c.get (f k) s
  set k v s := c.set (f k) v s
  del k s := c.del (f k) s

/-- `PrefixedCache` over a bytes prefix: `_key(key) = prefix + bytes(key)`. -/
def prefixedCacheB (pfx : List Nat) (c : Cache σ (List Nat) α) :
    Cache σ (List Nat) α :=
  keyCache (fun k => pfx ++ k) c

/-- `PrefixedCache` over a string prefix: `_key(key) = prefix + str(key)`
(strings are modelled as `List Char`). -/
def prefixedCacheS (pfx : List Char) (c : Cache σ (List Char) α) :
    Cache σ (List Char) α :=
  keyCache (fun k => pfx ++ k) c

/-- The mutable counters of a `StatsCache` instance together with the state
of the wrapped cache. -/
structure StatsSt (σ : Type) where
  tests : Nat
  reads : Nat
  writes : Nat
  dels : Nat
  hits : Nat
  inner : σ
deriving Repr

/-- `StatsCache`: each counter is incremented before delegating; `_hits` is
incremented only after `__getitem__` on the inner cache returned. -/
def statsCache (c : Cache σ κ α) : Cache (StatsSt σ) κ α where
  contains k st :=
    let r := c.contains k st.inner
    (r.1, { st with tests := st.tests + 1, inner := r.2 })
  get k st :=
    match c.get k st.inner with
    | (.ok v, s) =>
        (.ok v, { st with reads := st.reads + 1, hits := st.hits + 1, inner := s })
    | (.error e, s) =>
        (.error e, { st with reads := st.reads + 1, inner := s })
  set k v st :=
    let r := c.set k v st.inner
    (r.1, { st with writes := st.writes + 1, inner := r.2 })
  del k st :=
    let r := c.del k st.inner
    (r.1, { st with dels := st.dels + 1, inner := r.2 })

/-- `StatsCache.reset`: zero all counters, keep the cached data. -/
def statsReset (st : StatsSt σ) : StatsSt σ :=
  { st with tests := 0, reads := 0, writes := 0, dels := 0, hits := 0 }

/-- The state a fresh `StatsCache` starts from (`__init__` calls `reset`). -/
def initStats (s : σ) : StatsSt σ := ⟨0, 0, 0, 0, 0, s⟩

/-- `StatsCache.hits`: `float(self._hits) / max(self._reads, 1)`,
modelled over the rationals. -/
def hitRatio (st : StatsSt σ) : ℚ :=
  (st.hits : ℚ) / max (st.reads : ℚ) 1

/-- `TwoLevelCache.__getitem__`: try tier 1; on its `KeyError`, try tier 2;
a tier-2 `KeyError` re-raises the initial tier-1 error; another tier-2
failure is re-raised as the initial error iff `resilient`; on a tier-2 hit
the value is first stored into tier 1 and then returned. -/
def tlGet (c1 : Cache σ1 κ α) (c2 : Cache σ2 κ α) (resilient : Bool)
    (k : κ) (s : σ1 × σ2) : Except Err α × (σ1 × σ2) :=
  match c1.get k s.1 with
  | (.ok v, s1) => (.ok v, (s1, s.2))
  | (.error (.keyError m1), s1) =>
    match c2.get k s.2 with
    | (.ok v, s2) =>
      match c1.set k v s1 with
      | (.ok _, s1b) => (.ok v, (s1b, s2))
      | (.error e, s1b) => (.error e, (s1b, s2))
    | (.error (.keyError _), s2) => (.error (.keyError m1), (s1, s2))
    | (.error e, s2) =>
      if resilient then (.error (.keyError m1), (s1, s2))
      else (.error e, (s1, s2))
  | (.error e, s1) => (.error e, (s1, s.2))

/-- `TwoLevelCache.__setitem__`: write tier 2 first; a tier-2 failure is
propagated unless `resilient`; then write tier 1. -/
def tlSet (c1 : Cache σ1 κ α) (c2 : Cache σ2 κ α) (resilient : Bool)
    (k : κ) (v : α) (s : σ1 × σ2) : Except Err Unit × (σ1 × σ2) :=
  match c2.set k v s.2 with
  | (.ok _, s2) =>
    let r := c1.set k v s.1
    (r.1, (r.2, s2))
  | (.error e, s2) =>
    if resilient then
      let r := c1.set k v s.1
      (r.1, (r.2, s2))
    else (.error e, (s.1, s2))

/-- `TwoLevelCache.__delitem__`: delete from tier 2, silently ignoring its
`KeyError`; another tier-2 failure is propagated unless `resilient`; then
delete from tier 1. -/
def tlDel (c1 : Cache σ1 κ α) (c2 : Cache σ2 κ α) (resilient : Bool)
    (k : κ) (s : σ1 × σ2) : Except Err Unit × (σ1 × σ2) :=
  match c2.del k s.2 with
  | (.ok _, s2) =>
    let r := c1.del k s.1
    (r.1, (r.2, s2))
  | (.error (.keyError _), s2) =>
    let r := c1.del k s.1
    (r.1, (r.2, s2))
  | (.error e, s2) =>
    if resilient then
      let r := c1.del k s.1
      (r.1, (r.2, s2))
    else (.error e, (s.1, s2))

/-- `TwoLevelCache`: `__contains__` comes from `_MutMapMix` and consults
tier 1 only; the three other operations are overridden as above. -/
def twoLevelCache (c1 : Cache σ1 κ α) (c2 : Cache σ2 κ α)
    (resilient : Bool) : Cache (σ1 × σ2) κ α where
  contains k s :=
    let r := c1.contains k s.1
    (r.1, (r.2, s.2))
  get := tlGet c1 c2 resilient
  set := tlSet c1 c2 resilient
  del := tlDel c1 c2 resilient

/-- Rendering of a key inside the `KeyError` message of
`EncryptedCache.__getitem__` (Python interpolates `repr` of the key). -/
def reprB (k : List Nat) : String := toString k

/-- Parameters of an `EncryptedCache`: the configuration (`secret`,
`hsize`, `csize`) together with the external cryptographic collaborators:
`hash512` models `hashlib.sha3_512(...).digest()`, `hash256` models
`hashlib.sha3_256(...).digest()`, `cEnc`/`cDec` model
`self._cipher.new(derived).encrypt/.decrypt`, and `cPad`/`cUnpad` model
`self._cipher._pad/_unpad`. -/
structure EncParams where
  secret : List Nat
  hsize : Nat
  csize : Nat
  hash512 : List Nat → List Nat
  hash256 : List Nat → List Nat
  cEnc : List Nat → List Nat → List Nat
  cDec : List Nat → List Nat → List Nat
  cPad : List Nat → List Nat
  cUnpad : List Nat → List Nat

/-- `EncryptedCache._derive`, second component:
`hashlib.sha3_512(key + secret).digest()`. -/
def EncParams.derived (P : EncParams) (k : List Nat) : List Nat :=
  P.hash512 (k ++ P.secret)

/-- `EncryptedCache._key`: the first `hsize` bytes of the derived hash. -/
def EncParams.hkey (P : EncParams) (k : List Nat) : List Nat :=
  (P.derived k).take P.hsize

/-- `EncryptedCache`: keys are hashed (`_key`), values are padded and
encrypted on set (with the plaintext checksum prepended when `csize` is
non-zero) and the reverse on get, where a checksum mismatch raises
`KeyError(f"invalid encrypted value for key {key}")`. -/
def encCache (P : EncParams) (c : Cache σ (List Nat) (List Nat)) :
    Cache σ (List Nat) (List Nat) where
  contains k s := c.contains (P.hkey k) s
  get k s :=
    match c.get (P.hkey k) s with
    | (.ok xval, s1) =>
      if P.csize ≠ 0 then
        let cs := xval.take P.csize
        let xv := xval.drop P.csize
        let val := P.cUnpad (P.cDec (P.derived k) xv)
        if cs ≠ (P.hash256 val).take P.csize then
          (.error (.keyError ("invalid encrypted value for key " ++ reprB k)), s1)
        else (.ok val, s1)
      else (.ok (P.cUnpad (P.cDec (P.derived k) xval)), s1)
    | (.error e, s1) => (.error e, s1)
  set k v s :=
    let xval := P.cEnc (P.derived k) (P.cPad v)
    c.set (P.hkey k)
      (if P.csize ≠ 0 then (P.hash256 v).take P.csize ++ xval else xval) s
  del k s := c.del (P.hkey k) s

/-- The round-trip contract of the spec: `set(k, v)` succeeds and an
immediately following `get(k)` returns `v`, from any state. -/
def RoundTrip (c : Cache σ κ α) : Prop :=
  ∀ k v s, (c.set k v s).1 = .ok () ∧ (c.get k (c.set k v s).2).1 = .ok v

theorem dict_roundTrip (κ α : Type) [DecidableEq κ] :
    RoundTrip (dictCache κ α) := by
  intro k v s
  refine ⟨rfl, ?_⟩
  simp [dictCache]

theorem keyCache_roundTrip (f : κ → κ2) (c : Cache σ κ2 α)
    (h : RoundTrip c) : RoundTrip (keyCache f c) := by
  intro k v s
  exact h (f k) v s

theorem stats_roundTrip (c : Cache σ κ α) (h : RoundTrip c) :
    RoundTrip (statsCache c) := by
  intro k v st
  have h1 := (h k v st.inner).1
  have h2 := (h k v st.inner).2
  constructor
  · simpa [statsCache] using h1
  · simp only [statsCache]
    rcases hg : c.get k (c.set k v st.inner).2 with ⟨r, s2⟩
    rw [hg] at h2
    simp at h2
    subst h2
    simp

theorem take_append_len {γ : Type} {A B : List γ} {n : Nat}
    (h : A.length = n) : (A ++ B).take n = A := by
  subst h
  exact List.take_left A B

theorem drop_append_len {γ : Type} {A B : List γ} {n : Nat}
    (h : A.length = n) : (A ++ B).drop n = B := by
  subst h
  exact List.drop_left A B

theorem enc_roundTrip (P : EncParams)
    (hC : ∀ d v, P.cUnpad (P.cDec d (P.cEnc d (P.cPad v))) = v)
    (hL : ∀ v, P.csize ≤ (P.hash256 v).length)
    (c : Cache σ (List Nat) (List Nat)) (h : RoundTrip c) :
    RoundTrip (encCache P c) := by
  intro k v s
  by_cases hcs : P.csize ≠ 0
  · set w := (P.hash256 v).take P.csize ++ P.cEnc (P.derived k) (P.cPad v)
      with hw
    have h1 := (h (P.hkey k) w s).1
    have h2 := (h (P.hkey k) w s).2
    have hset : (encCache P c).set k v s = c.set (P.hkey k) w s := by
      simp only [encCache, if_pos hcs, hw]
    have hlen : ((P.hash256 v).take P.csize).length = P.csize := by
      rw [List.length_take]
      exact Nat.min_eq_left (hL v)
    have ht : w.take P.csize = (P.hash256 v).take P.csize := by
      rw [hw]
      exact take_append_len hlen
    have hd : w.drop P.csize = P.cEnc (P.derived k) (P.cPad v) := by
      rw [hw]
      exact drop_append_len hlen
    refine ⟨by rw [hset]; exact h1, ?_⟩
    rw [hset]
    show ((encCache P c).get k (c.set (P.hkey k) w s).2).1 = _
    simp only [encCache]
    rcases hg : c.get (P.hkey k) (c.set (P.hkey k) w s).2 with ⟨r, s2⟩
    rw [hg] at h2
    simp only at h2
    subst h2
    simp only [if_pos hcs, hd, hC, ht]
    simp
  · set w := P.cEnc (P.derived k) (P.cPad v) with hw
    have h1 := (h (P.hkey k) w s).1
    have h2 := (h (P.hkey k) w s).2
    have hset : (encCache P c).set k v s = c.set (P.hkey k) w s := by
      simp only [encCache, if_neg hcs, hw]
    refine ⟨by rw [hset]; exact h1, ?_⟩
    rw [hset]
    show ((encCache P c).get k (c.set (P.hkey k) w s).2).1 = _
    simp only [encCache]
    rcases hg : c.get (P.hkey k) (c.set (P.hkey k) w s).2 with ⟨r, s2⟩
    rw [hg] at h2
    simp only at h2
    subst h2
    simp only [if_neg hcs, hC]

/-- Claim C1: for every key and value, `set(k, v)` then `get(k)` returns
`v` on the in-memory base store, and this round-trip property is preserved
by every key-filtering decorator (hence `PrefixedCache`), by `StatsCache`,
and by `EncryptedCache` (given the cipher/checksum contracts of the
external crypto library); in particular it holds for the stacked
prefixed-over-stats-over-encrypted cache over a fresh in-memory store. -/
theorem C1_round_trip (κ α : Type) [DecidableEq κ] (P : EncParams)
    (hC : ∀ d v, P.cUnpad (P.cDec d (P.cEnc d (P.cPad v))) = v)
    (hL : ∀ v, P.csize ≤ (P.hash256 v).length)
    (pfx1 : List Nat) :
    RoundTrip (dictCache κ α)
    ∧ (∀ (σ κ2 : Type) (f : κ → κ2) (c : Cache σ κ2 α),
        RoundTrip c → RoundTrip (keyCache f c))
    ∧ (∀ (σ : Type) (c : Cache σ κ α), RoundTrip c → RoundTrip (statsCache c))
    ∧ (∀ (σ : Type) (c : Cache σ (List Nat) (List Nat)),
        RoundTrip c → RoundTrip (encCache P c))
    ∧ RoundTrip (prefixedCacheB pfx1
        (statsCache (encCache P (dictCache (List Nat) (List Nat))))) :=
  ⟨dict_roundTrip κ α,
   fun _ _ f c h => keyCache_roundTrip f c h,
   fun _ c h => stats_roundTrip c h,
   fun _ c h => enc_roundTrip P hC hL c h,
   keyCache_roundTrip _ _ (stats_roundTrip _
     (enc_roundTrip P hC hL _ (dict_roundTrip (List Nat) (List Nat))))⟩

/-- A concrete `EncParams` with the identity cipher and a constant
checksum hash, satisfying the contracts assumed of the external library. -/
def encParamsId : EncParams where
  secret := List.replicate 16 0
  hsize := 16
  csize := 2
  hash512 := fun b => b ++ List.replicate 64 0
  hash256 := fun _ => List.replicate 32 0
  cEnc := fun _ x => x
  cDec := fun _ x => x
  cPad := fun x => x
  cUnpad := fun x => x

/-- Witness for C1: the stacked prefixed/stats/encrypted cache over a fresh
in-memory store, at concrete cipher parameters, satisfies the round trip. -/
theorem C1_round_trip_witness :
    RoundTrip (prefixedCacheB [1]
      (statsCache (encCache encParamsId (dictCache (List Nat) (List Nat))))) :=
  (C1_round_trip (List Nat) (List Nat) encParamsId (fun _ _ => rfl)
    (fun _ => by simp [encParamsId]) [1]).2.2.2.2

/-- A cache whose get/del always raise `KeyError(m)` and whose set is a
no-op: used to exercise the tier-2 NotFound paths. -/
def errCache (m : String) : Cache Unit Nat Nat where
  contains _ s := (.ok false, s)
  get _ s := (.error (.keyError m), s)
  set _ _ s := (.ok (), s)
  del _ s := (.error (.keyError m), s)

/-- A second store that always fails (every operation raises a plain
`Exception`), as in the spec's two-level resilience scenario. -/
def failCache (κ α : Type) (m : String) : Cache Unit κ α where
  contains _ s := (.error (.exn m), s)
  get _ s := (.error (.exn m), s)
  set _ _ s := (.error (.exn m), s)
  del _ s := (.error (.exn m), s)

/-- Claim C2: `TwoLevelCache.get` state machine — a tier-1 hit returns the
value without touching tier 2 (for every tier-2 cache, tier 2's state is
unchanged); when both tiers raise `KeyError`, the original tier-1 error is
the one propagated; on a tier-1 miss and tier-2 hit, the value is first
written back into tier 1 and then returned. -/
theorem C2_two_level_get (c1 : Cache σ1 κ α) (c2 : Cache σ2 κ α)
    (res : Bool) (k : κ) (s1 : σ1) (s2 : σ2) :
    (∀ v s1a, c1.get k s1 = (.ok v, s1a) →
      (twoLevelCache c1 c2 res).get k (s1, s2) = (.ok v, (s1a, s2)))
    ∧ (∀ m1 s1a m2 s2a, c1.get k s1 = (.error (.keyError m1), s1a) →
        c2.get k s2 = (.error (.keyError m2), s2a) →
        (twoLevelCache c1 c2 res).get k (s1, s2)
          = (.error (.keyError m1), (s1a, s2a)))
    ∧ (∀ m1 s1a v s2a s1b, c1.get k s1 = (.error (.keyError m1), s1a) →
        c2.get k s2 = (.ok v, s2a) → c1.set k v s1a = (.ok (), s1b) →
        (twoLevelCache c1 c2 res).get k (s1, s2) = (.ok v, (s1b, s2a))) := by
  refine ⟨?_, ?_, ?_⟩
  · intro v s1a h1
    simp [twoLevelCache, tlGet, h1]
  · intro m1 s1a m2 s2a h1 h2
    simp [twoLevelCache, tlGet, h1, h2]
  · intro m1 s1a v s2a s1b h1 h2 h3
    simp [twoLevelCache, tlGet, h1, h2, h3]

/-- Witness for C2: with both tiers raising distinct `KeyError`s, the error
propagated is tier 1's. -/
theorem C2_two_level_get_witness :
    (twoLevelCache (errCache "t1") (errCache "t2") false).get 0 ((), ())
      = (.error (.keyError "t1"), ((), ())) :=
  (C2_two_level_get (errCache "t1") (errCache "t2") false 0 () ()).2.1
    "t1" () "t2" () rfl rfl

/-- Claim C3: `TwoLevelCache.set` writes tier 2 before tier 1 — a tier-2
set failure with resilient=false propagates with tier 1 unwritten, while
with resilient=true tier 1 is still written; `TwoLevelCache.del` ignores a
tier-2 `KeyError` and treats other tier-2 failures by the same resilience
policy; hence over an always-failing second store with resilient=true,
set and delete succeed using only the primary store, and with
resilient=false they propagate the second store's failure. -/
theorem C3_two_level_set_del (κ α : Type) [DecidableEq κ]
    (σ1 σ2 : Type) (c1 : Cache σ1 κ α) (c2 : Cache σ2 κ α)
    (k : κ) (v : α) (s1 : σ1) (s2 : σ2) :
    (∀ e s2a, c2.set k v s2 = (.error e, s2a) →
      (twoLevelCache c1 c2 false).set k v (s1, s2) = (.error e, (s1, s2a)))
    ∧ (∀ e s2a, c2.set k v s2 = (.error e, s2a) →
      (twoLevelCache c1 c2 true).set k v (s1, s2)
        = ((c1.set k v s1).1, ((c1.set k v s1).2, s2a)))
    ∧ (∀ s2a res, c2.set k v s2 = (.ok (), s2a) →
      (twoLevelCache c1 c2 res).set k v (s1, s2)
        = ((c1.set k v s1).1, ((c1.set k v s1).2, s2a)))
    ∧ (∀ m s2a res, c2.del k s2 = (.error (.keyError m), s2a) →
      (twoLevelCache c1 c2 res).del k (s1, s2)
        = ((c1.del k s1).1, ((c1.del k s1).2, s2a)))
    ∧ (∀ m s2a, c2.del k s2 = (.error (.exn m), s2a) →
      (twoLevelCache c1 c2 false).del k (s1, s2)
        = (.error (.exn m), (s1, s2a)))
    ∧ (∀ m s2a, c2.del k s2 = (.error (.exn m), s2a) →
      (twoLevelCache c1 c2 true).del k (s1, s2)
        = ((c1.del k s1).1, ((c1.del k s1).2, s2a)))
    ∧ (∀ s2a res, c2.del k s2 = (.ok (), s2a) →
      (twoLevelCache c1 c2 res).del k (s1, s2)
        = ((c1.del k s1).1, ((c1.del k s1).2, s2a)))
    ∧ (∀ (d : κ → Option α) (m : String),
        ((twoLevelCache (dictCache κ α) (failCache κ α m) true).set
          k v (d, ())).1 = .ok ())
    ∧ (∀ (d : κ → Option α) (m : String),
        ((twoLevelCache (dictCache κ α) (failCache κ α m) false).set
          k v (d, ())).1 = .error (.exn m))
    ∧ (∀ (d : κ → Option α) (m : String) (v0 : α), d k = some v0 →
        ((twoLevelCache (dictCache κ α) (failCache κ α m) true).del
          k (d, ())).1 = .ok ()) := by
  refine ⟨?_, ?_, ?_, ?_, ?_, ?_, ?_, ?_, ?_, ?_⟩
  · intro e s2a h2
    simp [twoLevelCache, tlSet, h2]
  · intro e s2a h2
    simp [twoLevelCache, tlSet, h2]
  · intro s2a res h2
    simp [twoLevelCache, tlSet, h2]
  · intro m s2a res h2
    simp [twoLevelCache, tlDel, h2]
  · intro m s2a h2
    simp [twoLevelCache, tlDel, h2]
  · intro m s2a h2
    simp [twoLevelCache, tlDel, h2]
  · intro s2a res h2
    simp [twoLevelCache, tlDel, h2]
  · intro d m
    simp [twoLevelCache, tlSet, failCache, dictCache]
  · intro d m
    simp [twoLevelCache, tlSet, failCache, dictCache]
  · intro d m v0 hd
    simp [twoLevelCache, tlDel, failCache, dictCache, hd]

/-- Witness for C3: over a one-entry primary dict and an always-failing
second store with resilient=true, set succeeds. -/
theorem C3_two_level_set_del_witness :
    ((twoLevelCache (dictCache Nat Nat) (failCache Nat Nat "down") true).set
      0 7 ((fun _ => none), ())).1 = .ok () :=
  (C3_two_level_set_del Nat Nat (Nat → Option Nat) Unit (dictCache Nat Nat)
    (failCache Nat Nat "down") 0 7 (fun _ => none) ()).2.2.2.2.2.2.2.1
    (fun _ => none) "down"

/-- Claim C10: `StatsCache` increments `_dels`, `_writes`, `_tests` and
`_reads` before delegating, so the counters count attempted operations and
survive an inner failure; only `_hits` is conditioned on the inner get
returning; deleting an absent key on a stats-wrapped dict raises `KeyError`
yet leaves `_dels` incremented. -/
theorem C10_stats_counters (κ α : Type) [DecidableEq κ]
    (σ : Type) (c : Cache σ κ α) (st : StatsSt σ) (k : κ) (v : α) :
    (((statsCache c).del k st).2.dels = st.dels + 1)
    ∧ (((statsCache c).set k v st).2.writes = st.writes + 1)
    ∧ (((statsCache c).contains k st).2.tests = st.tests + 1)
    ∧ (((statsCache c).get k st).2.reads = st.reads + 1)
    ∧ (∀ e s2, c.get k st.inner = (.error e, s2) →
        ((statsCache c).get k st).2.hits = st.hits)
    ∧ (∀ w s2, c.get k st.inner = (.ok w, s2) →
        ((statsCache c).get k st).2.hits = st.hits + 1)
    ∧ (∀ (d : κ → Option α) (t r wr dl h : Nat), d k = none →
        ((statsCache (dictCache κ α)).del k ⟨t, r, wr, dl, h, d⟩).1
            = .error (.keyError "KeyError")
        ∧ ((statsCache (dictCache κ α)).del k ⟨t, r, wr, dl, h, d⟩).2.dels
            = dl + 1) := by
  refine ⟨?_, ?_, ?_, ?_, ?_, ?_, ?_⟩
  · simp [statsCache]
  · simp [statsCache]
  · simp [statsCache]
  · rcases hg : c.get k st.inner with ⟨r, s2⟩
    cases r <;> simp [statsCache, hg]
  · intro e s2 hg
    simp [statsCache, hg]
  · intro w s2 hg
    simp [statsCache, hg]
  · intro d t r wr dl h hd
    constructor <;> simp [statsCache, dictCache, hd]

/-- Witness for C10: deleting an absent key from a stats-wrapped empty
dict raises `KeyError` and still bumps the `_dels` counter. -/
theorem C10_stats_counters_witness :
    ((statsCache (dictCache Nat Nat)).del 0 ⟨0, 0, 0, 0, 0, fun _ => none⟩).1
        = .error (.keyError "KeyError")
    ∧ ((statsCache (dictCache Nat Nat)).del 0
        ⟨0, 0, 0, 0, 0, fun _ => none⟩).2.dels = 0 + 1 :=
  (C10_stats_counters Nat Nat _ (dictCache Nat Nat)
    ⟨0, 0, 0, 0, 0, fun _ => none⟩ 0 0).2.2.2.2.2.2
    (fun _ => none) 0 0 0 0 0 rfl

/-- One client operation on a `StatsCache` (the operations that can touch
the counters, including `reset`). -/
inductive SOp (κ α : Type) where
  | testOp (k : κ)
  | getOp (k : κ)
  | setOp (k : κ) (v : α)
  | delOp (k : κ)
  | resetOp

/-- The state reached after one `StatsCache` operation. -/
def applyOp (c : Cache σ κ α) : SOp κ α → StatsSt σ → StatsSt σ
  | .testOp k, st => ((statsCache c).contains k st).2
  | .getOp k, st => ((statsCache c).get k st).2
  | .setOp k v, st => ((statsCache c).set k v st).2
  | .delOp k, st => ((statsCache c).del k st).2
  | .resetOp, st => statsReset st

/-- The state reached after a sequence of `StatsCache` operations. -/
def runStats (c : Cache σ κ α) : List (SOp κ α) → StatsSt σ → StatsSt σ
  | [], st => st
  | op :: ops, st => runStats c ops (applyOp c op st)

theorem applyOp_hits_le (c : Cache σ κ α) (op : SOp κ α) (st : StatsSt σ)
    (h : st.hits ≤ st.reads) :
    (applyOp c op st).hits ≤ (applyOp c op st).reads := by
  cases op with
  | testOp k => simpa [applyOp, statsCache] using h
  | getOp k =>
    rcases hg : c.get k st.inner with ⟨r, s2⟩
    cases r <;> simp [applyOp, statsCache, hg] <;> omega
  | setOp k v => simpa [applyOp, statsCache] using h
  | delOp k => simpa [applyOp, statsCache] using h
  | resetOp => simp [applyOp, statsReset]

theorem runStats_hits_le (c : Cache σ κ α) (ops : List (SOp κ α)) :
    ∀ st : StatsSt σ, st.hits ≤ st.reads →
      (runStats c ops st).hits ≤ (runStats c ops st).reads := by
  induction ops with
  | nil => intro st h; simpa [runStats] using h
  | cons op ops ih =>
    intro st h
    simpa [runStats] using ih _ (applyOp_hits_le c op st h)

/-- Claim C6 (amended): in every reachable state of a `StatsCache`,
`hits()` equals `hits / max(reads, 1)` (a total function — no division by
zero), lies in `[0, 1]`, equals 0 whenever `reads = 0`, and equals 0
exactly when `hits = 0` (not exactly when `reads = 0`: a missed read
leaves the ratio at 0 with `reads > 0`). -/
theorem C6_hit_ratio (σ κ α : Type) (c : Cache σ κ α) (s0 : σ)
    (ops : List (SOp κ α)) :
    hitRatio (runStats c ops (initStats s0))
        = ((runStats c ops (initStats s0)).hits : ℚ)
          / max ((runStats c ops (initStats s0)).reads : ℚ) 1
    ∧ 0 ≤ hitRatio (runStats c ops (initStats s0))
    ∧ hitRatio (runStats c ops (initStats s0)) ≤ 1
    ∧ ((runStats c ops (initStats s0)).reads = 0 →
        hitRatio (runStats c ops (initStats s0)) = 0)
    ∧ (hitRatio (runStats c ops (initStats s0)) = 0 ↔
        (runStats c ops (initStats s0)).hits = 0) := by
  have hinv : (runStats c ops (initStats s0)).hits
      ≤ (runStats c ops (initStats s0)).reads :=
    runStats_hits_le c ops (initStats s0) (by simp [initStats])
  set st := runStats c ops (initStats s0) with hst
  have hmax : (0 : ℚ) < max (st.reads : ℚ) 1 :=
    lt_of_lt_of_le zero_lt_one (le_max_right _ 1)
  refine ⟨rfl, ?_, ?_, ?_, ?_⟩
  · exact div_nonneg (by positivity) (le_of_lt hmax)
  · rw [hitRatio, div_le_one hmax]
    calc (st.hits : ℚ) ≤ (st.reads : ℚ) := by exact_mod_cast hinv
    _ ≤ max (st.reads : ℚ) 1 := le_max_left _ _
  · intro h0
    have : st.hits = 0 := by omega
    simp [hitRatio, this]
  · rw [hitRatio, div_eq_zero_iff]
    constructor
    · rintro (h | h)
      · exact_mod_cast h
      · exact absurd h (ne_of_gt hmax)
    · intro h
      left
      exact_mod_cast h

/-- Witness for C6: after a single set (no reads yet) the hit ratio is 0. -/
theorem C6_hit_ratio_witness :
    hitRatio (runStats (dictCache Nat Nat) [SOp.setOp 0 5]
      (initStats (fun _ => none))) = 0 :=
  (C6_hit_ratio _ Nat Nat (dictCache Nat Nat) (fun _ => none)
    [SOp.setOp 0 5]).2.2.2.1 rfl

/-- Counterexample for C6 as stated: after one missed read on an empty
stats-wrapped dict, `hits()` is 0 although `reads = 1 ≠ 0`, so "equals 0
exactly when reads = 0" fails. -/
theorem C6_hit_ratio_cex :
    ¬ (hitRatio (runStats (dictCache Nat Nat) [SOp.getOp 0]
          (initStats (fun _ => none))) = 0
        ↔ (runStats (dictCache Nat Nat) [SOp.getOp 0]
          (initStats (fun _ => none))).reads = 0) := by
  intro h
  have hh : (runStats (dictCache Nat Nat) [SOp.getOp 0]
      (initStats (fun _ => none))).hits = 0 := rfl
  have h0 : hitRatio (runStats (dictCache Nat Nat) [SOp.getOp 0]
      (initStats (fun _ => none))) = 0 := by
    simp [hitRatio, hh]
  have hr : (runStats (dictCache Nat Nat) [SOp.getOp 0]
      (initStats (fun _ => none))).reads = 1 := rfl
  rw [hr] at h
  exact absurd (h.mp h0) one_ne_zero

/-- Claim C4: on `EncryptedCache.get` with `csize ≠ 0`, when the checksum
split off the fetched value differs from the recomputed plaintext checksum,
the result is a `KeyError` — the NotFound kind — whose message identifies
the value as invalid; and an absent entry propagates a `KeyError` as well,
so the two failure modes share the same error kind. -/
theorem C4_checksum_mismatch (σ : Type) (P : EncParams)
    (c : Cache σ (List Nat) (List Nat)) (k : List Nat) (s : σ)
    (hcs : P.csize ≠ 0) :
    (∀ xval s1, c.get (P.hkey k) s = (.ok xval, s1) →
      xval.take P.csize
        ≠ (P.hash256 (P.cUnpad (P.cDec (P.derived k)
            (xval.drop P.csize)))).take P.csize →
      (encCache P c).get k s
        = (.error (.keyError ("invalid encrypted value for key " ++ reprB k)),
           s1))
    ∧ (∀ m s1, c.get (P.hkey k) s = (.error (.keyError m), s1) →
      (encCache P c).get k s = (.error (.keyError m), s1)) := by
  constructor
  · intro xval s1 hg hne
    simp [encCache, hg, hcs, hne]
  · intro m s1 hg
    simp [encCache, hg]

/-- Cipher parameters for the C4 scenario: identity cipher, checksum of
one byte echoing the first plaintext byte. -/
def encParamsW : EncParams where
  secret := List.replicate 16 0
  hsize := 16
  csize := 1
  hash512 := fun b => b ++ List.replicate 64 0
  hash256 := fun v => v ++ List.replicate 32 0
  cEnc := fun _ x => x
  cDec := fun _ x => x
  cPad := fun x => x
  cUnpad := fun x => x

/-- Witness for C4: a stored value whose ciphertext byte was tampered with
([7,8] instead of [7,7]) makes get fail with the invalid-value KeyError. -/
theorem C4_checksum_mismatch_witness :
    (encCache encParamsW (dictCache (List Nat) (List Nat))).get [1]
        (fun q => if q = encParamsW.hkey [1] then some [7, 8] else none)
      = (.error (.keyError ("invalid encrypted value for key " ++ reprB [1])),
         (fun q => if q = encParamsW.hkey [1] then some [7, 8] else none)) :=
  (C4_checksum_mismatch _ encParamsW (dictCache (List Nat) (List Nat)) [1]
      (fun q => if q = encParamsW.hkey [1] then some [7, 8] else none)
      (by decide)).1
    [7, 8] _ rfl (by decide)

/-- The cipher names `_Cipher.__init__` accepts. -/
def cipherNames : List String :=
  ["Salsa20", "ChaCha20", "AES", "AES-128", "AES-128-CBC"]

/-- `_Cipher.__init__`: accept Salsa20, ChaCha20 and the AES spellings,
raise `Exception(f"unexpected cipher: {name}")` for anything else. -/
def cipherInit (name : String) : Except Err Unit :=
  if name = "Salsa20" then .ok ()
  else if name = "ChaCha20" then .ok ()
  else if name = "AES" ∨ name = "AES-128" ∨ name = "AES-128-CBC" then .ok ()
  else .error (.exn ("unexpected cipher: " ++ name))

/-- `EncryptedCache.__init__`: the three `assert`s on the secret length,
`hsize` and `csize` in source order, then the `_Cipher` construction.
Sizes are integers, as in Python. -/
def encryptedCacheInit (secret : List Nat) (hsize csize : Int)
    (cipher : String) : Except Err Unit :=
  if 16 ≤ secret.length then
    if 8 ≤ hsize ∧ hsize ≤ 32 then
      if 0 ≤ csize ∧ csize ≤ 32 then cipherInit cipher
      else .error (.assertionError "")
    else .error (.assertionError "")
  else .error (.assertionError "")

/-- Claim C5: `EncryptedCache` construction succeeds exactly when the
secret has at least 16 bytes, `hsize ∈ [8,32]`, `csize ∈ [0,32]` and the
cipher identifier is one of the supported ones; with valid sizes and an
unknown cipher it fails with an error naming the rejected value. -/
theorem C5_encrypted_init (secret : List Nat) (hsize csize : Int)
    (cipher : String) :
    (encryptedCacheInit secret hsize csize cipher = .ok () ↔
      (16 ≤ secret.length ∧ 8 ≤ hsize ∧ hsize ≤ 32 ∧ 0 ≤ csize ∧ csize ≤ 32
        ∧ cipher ∈ cipherNames))
    ∧ (16 ≤ secret.length → 8 ≤ hsize → hsize ≤ 32 → 0 ≤ csize → csize ≤ 32 →
        cipher ∉ cipherNames →
        encryptedCacheInit secret hsize csize cipher
          = .error (.exn ("unexpected cipher: " ++ cipher))) := by
  constructor
  · unfold encryptedCacheInit cipherInit
    split_ifs with h1 h2 h3 h4 h5 h6 <;> simp_all [cipherNames]
  · intro hs h8 h32 hc0 hc32 hmem
    unfold encryptedCacheInit cipherInit
    rw [if_pos hs, if_pos ⟨h8, h32⟩, if_pos ⟨hc0, hc32⟩]
    simp only [cipherNames, List.mem_cons, List.mem_singleton] at hmem
    push_neg at hmem
    rw [if_neg hmem.1, if_neg hmem.2.1, if_neg (by tauto)]

/-- Witness for C5: valid sizes, unknown cipher "XYZ" — construction fails
with an error naming the rejected value. -/
theorem C5_encrypted_init_witness :
    encryptedCacheInit (List.replicate 16 0) 16 0 "XYZ"
      = .error (.exn ("unexpected cipher: " ++ "XYZ")) :=
  (C5_encrypted_init (List.replicate 16 0) 16 0 "XYZ").2
    (by simp) (by norm_num) (by norm_num) (by norm_num) (by norm_num)
    (by decide)

/-- `p` is a string prefix of `q`. -/
def isPref (p q : List Char) : Prop := q.take p.length = p

instance (p q : List Char) : Decidable (isPref p q) := by
  unfold isPref
  infer_instance

theorem append_eq_pref {p1 p2 k1 k2 : List Char} (h : p1 ++ k1 = p2 ++ k2) :
    isPref p1 p2 ∨ isPref p2 p1 := by
  induction p1 generalizing p2 with
  | nil =>
    left
    simp [isPref]
  | cons a p1 ih =>
    cases p2 with
    | nil =>
      right
      simp [isPref]
    | cons b p2 =>
      simp only [List.cons_append, List.cons.injEq] at h
      rcases h with ⟨hab, h⟩
      rcases ih h with hl | hr
      · left
        simp [isPref, List.take_succ_cons, hab, hl]
        exact hl
      · right
        simp [isPref, List.take_succ_cons, hab, hr]
        exact hr

theorem pref_ne_append {p1 p2 : List Char} (h1 : ¬ isPref p1 p2)
    (h2 : ¬ isPref p2 p1) (k1 k2 : List Char) : p1 ++ k1 ≠ p2 ++ k2 :=
  fun h => (append_eq_pref h).elim h1 h2

/-- A sequence of `set` operations performed through a cache. -/
def runWrites (c : Cache σ κ α) : List (κ × α) → σ → σ
  | [], s => s
  | (k, v) :: ws, s => runWrites c ws (c.set k v s).2

theorem runWrites_dom (α : Type) (p2 : List Char)
    (ws : List (List Char × α)) :
    ∀ s : List Char → Option α,
      (∀ q, (s q).isSome → ∃ k2, q = p2 ++ k2) →
      ∀ q, ((runWrites (prefixedCacheS p2 (dictCache (List Char) α)) ws s)
          q).isSome → ∃ k2, q = p2 ++ k2 := by
  induction ws with
  | nil =>
    intro s hs q
    exact hs q
  | cons w ws ih =>
    rcases w with ⟨k, v⟩
    intro s hs q
    apply ih
    intro q2 hq2
    by_cases hq : q2 = p2 ++ k
    · exact ⟨k, hq⟩
    · apply hs
      simpa [runWrites, prefixedCacheS, keyCache, dictCache, hq] using hq2

/-- Claim C7 (amended): for two `PrefixedCache` views over the same backing
store whose prefixes are such that neither is a string prefix of the
other, a key written only through the second view is never observed
through the first: `contains` through the first view is false for every
key when only the second view has written. -/
theorem C7_prefix_isolation (α : Type) (p1 p2 : List Char)
    (h1 : ¬ isPref p1 p2) (h2 : ¬ isPref p2 p1)
    (ws : List (List Char × α)) (k1 : List Char) :
    ((prefixedCacheS p1 (dictCache (List Char) α)).contains k1
      (runWrites (prefixedCacheS p2 (dictCache (List Char) α)) ws
        (fun _ => none))).1 = .ok false := by
  have hdom := runWrites_dom α p2 ws (fun _ => none) (by simp) (p1 ++ k1)
  have hnone : (runWrites (prefixedCacheS p2 (dictCache (List Char) α)) ws
      (fun _ => none)) (p1 ++ k1) = none := by
    by_contra hne
    rcases hdom (by simp [Option.isSome_iff_ne_none, hne]) with ⟨k2, hk2⟩
    exact pref_ne_append h1 h2 k1 k2 hk2
  simp only [prefixedCacheS, keyCache, dictCache] at hnone ⊢
  simp [hnone]

/-- Witness for C7: prefixes "f." and "g." (neither a prefix of the
other); after writing key "x" through the "g." view, "x" is not seen
through the "f." view. -/
theorem C7_prefix_isolation_witness :
    ((prefixedCacheS ['f', '.'] (dictCache (List Char) Nat)).contains ['x']
      (runWrites (prefixedCacheS ['g', '.'] (dictCache (List Char) Nat))
        [(['x'], 1)] (fun _ => none))).1 = .ok false :=
  C7_prefix_isolation Nat ['f', '.'] ['g', '.'] (by decide) (by decide)
    [(['x'], 1)] ['x']

/-- Counterexample for C7 as stated: the prefixes "a" and "ab" are
different, yet after writing key "b" only through the "ab" view, the key
"bb" is observed through the "a" view (both map to stored key "abb"). -/
theorem C7_prefix_isolation_cex :
    ((prefixedCacheS ['a'] (dictCache (List Char) Nat)).contains ['b', 'b']
      (runWrites (prefixedCacheS ['a', 'b'] (dictCache (List Char) Nat))
        [(['b'], 1)] (fun _ => none))).1 = .ok true := by
  rfl

/-- A Python callable: either an original function or a `cached` wrapper
holding its `__wrapped__` callable. -/
inductive PyFun where
  | base (id : Nat)
  | wrapped (inner : PyFun)
deriving DecidableEq, Repr

/-- The `while hasattr(f, "__wrapped__"): f = f.__wrapped__` loop. -/
def unwrapF : PyFun → PyFun
  | .base i => .base i
  | .wrapped f => unwrapF f

/-- Attribute/namespace lookup (`hasattr`/`getattr`, `fun in globs`). -/
def lookupA : List (String × PyFun) → String → Option PyFun
  | [], _ => none
  | (n, f) :: rest, q => if q = n then some f else lookupA rest q

/-- Attribute/namespace update (`setattr`, `globs[fun] = ...`). -/
def setA : List (String × PyFun) → String → PyFun →
    List (String × PyFun)
  | [], q, g => [(q, g)]
  | (n, f) :: rest, q, g =>
    if q = n then (n, g) :: rest else (n, f) :: setA rest q g

/-- `cacheFunctions`: for each named function, assert presence — with the
source's literal (non-f-string) message "caching functions: \x7bfun\x7d
not found" — unwrap any `__wrapped__` chain, and store one wrapper. -/
def cacheFunctionsM : List (String × PyFun) → List (String × String) →
    Except Err (List (String × PyFun))
  | globs, [] => .ok globs
  | globs, (n, _) :: funs =>
    match lookupA globs n with
    | none =>
      .error (.assertionError "caching functions: \x7bfun\x7d not found")
    | some f => cacheFunctionsM (setA globs n (.wrapped (unwrapF f))) funs

/-- `cacheMethods`: same loop over an object's attributes, with the
f-string message `f"cannot cache missing method {fun} on {obj}"`. -/
def cacheMethodsM (objName : String) : List (String × PyFun) →
    List (String × String) → Except Err (List (String × PyFun))
  | attrs, [] => .ok attrs
  | attrs, (n, _) :: funs =>
    match lookupA attrs n with
    | none =>
      .error (.assertionError
        ("cannot cache missing method " ++ n ++ " on " ++ objName))
    | some f => cacheMethodsM objName (setA attrs n (.wrapped (unwrapF f))) funs

theorem lookupA_setA (l : List (String × PyFun)) (n : String) (g : PyFun) :
    lookupA (setA l n g) n = some g := by
  induction l with
  | nil => simp [setA, lookupA]
  | cons p rest ih =>
    rcases p with ⟨m, f⟩
    by_cases h : n = m <;> simp [setA, lookupA, h, ih]

theorem setA_setA (l : List (String × PyFun)) (n : String) (g g2 : PyFun) :
    setA (setA l n g) n g2 = setA l n g2 := by
  induction l with
  | nil => simp [setA]
  | cons p rest ih =>
    rcases p with ⟨m, f⟩
    by_cases h : n = m <;> simp [setA, h, ih]

theorem unwrapF_idem (f : PyFun) : unwrapF (unwrapF f) = unwrapF f := by
  induction f with
  | base i => rfl
  | wrapped g ih => simpa [unwrapF] using ih

/-- Claim C9 evaluation: a missing target makes both batch helpers fail
fast — `cacheMethods` with an error naming the missing method, but
`cacheFunctions` with the constant literal message (the missing `f` prefix
means the target is NOT named); a present target is replaced by a single
wrapper over the fully unwrapped callable, and re-running the wrap leaves
the namespace unchanged (layers are not multiplied). -/
theorem C9_batch_wrap (globs attrs : List (String × PyFun))
    (objName n p : String) :
    (lookupA globs n = none →
      cacheFunctionsM globs [(n, p)]
        = .error (.assertionError "caching functions: \x7bfun\x7d not found"))
    ∧ (lookupA attrs n = none →
      cacheMethodsM objName attrs [(n, p)]
        = .error (.assertionError
            ("cannot cache missing method " ++ n ++ " on " ++ objName)))
    ∧ (∀ f, lookupA globs n = some f →
      cacheFunctionsM globs [(n, p)]
        = .ok (setA globs n (.wrapped (unwrapF f))))
    ∧ (∀ f gl2, lookupA globs n = some f →
      cacheFunctionsM globs [(n, p)] = .ok gl2 →
      cacheFunctionsM gl2 [(n, p)] = .ok gl2) := by
  refine ⟨?_, ?_, ?_, ?_⟩
  · intro h
    simp [cacheFunctionsM, h]
  · intro h
    simp [cacheMethodsM, h]
  · intro f h
    simp [cacheFunctionsM, h]
  · intro f gl2 h h2
    simp [cacheFunctionsM, h] at h2
    subst h2
    simp [cacheFunctionsM, lookupA_setA, setA_setA, unwrapF, unwrapF_idem]

/-- Witness for C9: wrapping a function absent from the namespace fails
with the literal placeholder message, which does not name the target. -/
theorem C9_batch_wrap_witness :
    cacheFunctionsM [] [("absent", "p.")]
      = .error (.assertionError "caching functions: \x7bfun\x7d not found") :=
  (C9_batch_wrap [] [] "obj" "absent" "p.").1 rfl

/-! `AutoPrefixedCache` renders the process counter through one of the
`base64`-module encoders.  The encoders below are implemented
byte-for-byte after CPython's `base64` module; each comes with a decoder
used only to establish injectivity on byte strings. -/

/-- Character of an encoding alphabet at a given index. -/
def chA (al : List Char) (i : Nat) : Char := al.getD i '?'

/-- Index of a character in an encoding alphabet. -/
def unA (al : List Char) (c : Char) : Nat := al.indexOf c

/-- The standard base64 alphabet. -/
def alphaB64 : List Char :=
  "ABCDEFGHIJKLMNOPQRSTUVWXYZabcdefghijklmnopqrstuvwxyz0123456789+/".toList

/-- The URL-safe base64 alphabet. -/
def alphaB64u : List Char :=
  "ABCDEFGHIJKLMNOPQRSTUVWXYZabcdefghijklmnopqrstuvwxyz0123456789-_".toList

/-- The base32 alphabet. -/
def alphaB32 : List Char := "ABCDEFGHIJKLMNOPQRSTUVWXYZ234567".toList

/-- The base32hex alphabet. -/
def alphaB32x : List Char := "0123456789ABCDEFGHIJKLMNOPQRSTUV".toList

/-- The base16 alphabet. -/
def alphaB16 : List Char := "0123456789ABCDEF".toList

/-- The base85 (`b85encode`) alphabet. -/
def alphaB85 : List Char :=
  "0123456789ABCDEFGHIJKLMNOPQRSTUVWXYZabcdefghijklmnopqrstuvwxyz!#$%&()*+-;<=>?@^_`\x7b|\x7d~".toList

/-- Ascii85 character: `chr(33 + i)`. -/
def a85ch (i : Nat) : Char := Char.ofNat (33 + i)

/-- Ascii85 digit value of a character. -/
def a85un (c : Char) : Nat := c.toNat - 33

/-- `base64.b16encode`: two hex digits per byte. -/
def b16e (al : List Char) : List Nat → List Char
  | [] => []
  | a :: r => chA al (a / 16) :: chA al (a % 16) :: b16e al r

/-- Decoder for `b16e`. -/
def b16d (al : List Char) : List Char → List Nat
  | c0 :: c1 :: r => (unA al c0 * 16 + unA al c1) :: b16d al r
  | _ => []

theorem b16_rt (al : List Char) (hu : ∀ i, i < 16 → unA al (chA al i) = i) :
    ∀ l, (∀ a ∈ l, a < 256) → b16d al (b16e al l) = l := by
  intro l
  induction l with
  | nil => intro _; rfl
  | cons a r ih =>
    intro hb
    have ha : a < 256 := hb a (by simp)
    simp only [b16e, b16d]
    rw [hu _ (by omega), hu _ (by omega), ih (fun x hx => hb x (by simp [hx]))]
    simp only [List.cons.injEq, and_true]
    omega

/-- `base64.b64encode` / `urlsafe_b64encode`: 3-byte groups become 4
characters; a final group of 1 or 2 bytes is zero-extended and padded
with `=`. -/
def b64e (al : List Char) : List Nat → List Char
  | [] => []
  | [a] => [chA al (a / 4), chA al (a % 4 * 16), '=', '=']
  | [a, b] =>
    [chA al (a / 4), chA al (a % 4 * 16 + b / 16), chA al (b % 16 * 4), '=']
  | a :: b :: c :: r =>
    chA al (a / 4) :: chA al (a % 4 * 16 + b / 16) ::
    chA al (b % 16 * 4 + c / 64) :: chA al (c % 64) :: b64e al r

/-- Decoder for `b64e`. -/
def b64d (al : List Char) : List Char → List Nat
  | c0 :: c1 :: c2 :: c3 :: r =>
    if c2 = '=' then [unA al c0 * 4 + unA al c1 / 16]
    else if c3 = '=' then
      [unA al c0 * 4 + unA al c1 / 16, unA al c1 % 16 * 16 + unA al c2 / 4]
    else
      (unA al c0 * 4 + unA al c1 / 16) ::
      (unA al c1 % 16 * 16 + unA al c2 / 4) ::
      (unA al c2 % 4 * 64 + unA al c3) :: b64d al r
  | _ => []

theorem b64_rt (al : List Char) (hu : ∀ i, i < 64 → unA al (chA al i) = i)
    (hne : ∀ i, i < 64 → chA al i ≠ '=') :
    ∀ l, (∀ a ∈ l, a < 256) → b64d al (b64e al l) = l := by
  have main : ∀ (n : Nat) (l : List Nat), l.length ≤ n →
      (∀ a ∈ l, a < 256) → b64d al (b64e al l) = l := by
    intro n
    induction n with
    | zero =>
      intro l hl _
      rw [List.eq_nil_of_length_eq_zero (Nat.le_zero.mp hl)]
      rfl
    | succ n ih =>
      intro l hl hb
      match l with
      | [] => rfl
      | [a] =>
        have ha : a < 256 := hb a (by simp)
        simp only [b64e, b64d]
        rw [if_true, hu _ (by omega), hu _ (by omega)]
        simp only [List.cons.injEq, and_true]
        omega
      | [a, b] =>
        have ha : a < 256 := hb a (by simp)
        have hb2 : b < 256 := hb b (by simp)
        simp only [b64e, b64d]
        rw [if_neg (hne _ (by omega)), if_true,
          hu _ (by omega), hu _ (by omega), hu _ (by omega)]
        simp only [List.cons.injEq, and_true]
        omega
      | a :: b :: c :: r =>
        have ha : a < 256 := hb a (by simp)
        have hb2 : b < 256 := hb b (by simp)
        have hc : c < 256 := hb c (by simp)
        simp only [b64e, b64d]
        rw [if_neg (hne _ (by omega)), if_neg (hne _ (by omega)),
          hu _ (by omega), hu _ (by omega), hu _ (by omega), hu _ (by omega)]
        rw [ih r (by simp at hl; omega) (fun x hx => hb x (by simp [hx]))]
        simp only [List.cons.injEq, and_true]
        omega
  intro l
  exact main l.length l (le_refl _)

/-- `base64.b32encode` / `b32hexencode`: 5-byte groups become 8
characters; a final group of 1/2/3/4 bytes is zero-extended to 2/4/5/7
digits and padded with `=`. -/
def b32e (al : List Char) : List Nat → List Char
  | [] => []
  | [a] => [chA al (a / 8), chA al (a % 8 * 4), '=', '=', '=', '=', '=', '=']
  | [a, b] =>
    [chA al (a / 8), chA al (a % 8 * 4 + b / 64), chA al (b / 2 % 32),
     chA al (b % 2 * 16), '=', '=', '=', '=']
  | [a, b, c] =>
    [chA al (a / 8), chA al (a % 8 * 4 + b / 64), chA al (b / 2 % 32),
     chA al (b % 2 * 16 + c / 16), chA al (c % 16 * 2), '=', '=', '=']
  | [a, b, c, d] =>
    [chA al (a / 8), chA al (a % 8 * 4 + b / 64), chA al (b / 2 % 32),
     chA al (b % 2 * 16 + c / 16), chA al (c % 16 * 2 + d / 128),
     chA al (d / 4 % 32), chA al (d % 4 * 8), '=']
  | a :: b :: c :: d :: e :: r =>
    chA al (a / 8) :: chA al (a % 8 * 4 + b / 64) :: chA al (b / 2 % 32) ::
    chA al (b % 2 * 16 + c / 16) :: chA al (c % 16 * 2 + d / 128) ::
    chA al (d / 4 % 32) :: chA al (d % 4 * 8 + e / 32) :: chA al (e % 32) ::
    b32e al r

/-- Decoder for `b32e`. -/
def b32d (al : List Char) : List Char → List Nat
  | c0 :: c1 :: c2 :: c3 :: c4 :: c5 :: c6 :: c7 :: r =>
    if c2 = '=' then [unA al c0 * 8 + unA al c1 / 4]
    else if c4 = '=' then
      [unA al c0 * 8 + unA al c1 / 4,
       unA al c1 % 4 * 64 + unA al c2 * 2 + unA al c3 / 16]
    else if c5 = '=' then
      [unA al c0 * 8 + unA al c1 / 4,
       unA al c1 % 4 * 64 + unA al c2 * 2 + unA al c3 / 16,
       unA al c3 % 16 * 16 + unA al c4 / 2]
    else if c7 = '=' then
      [unA al c0 * 8 + unA al c1 / 4,
       unA al c1 % 4 * 64 + unA al c2 * 2 + unA al c3 / 16,
       unA al c3 % 16 * 16 + unA al c4 / 2,
       unA al c4 % 2 * 128 + unA al c5 * 4 + unA al c6 / 8]
    else
      (unA al c0 * 8 + unA al c1 / 4) ::
      (unA al c1 % 4 * 64 + unA al c2 * 2 + unA al c3 / 16) ::
      (unA al c3 % 16 * 16 + unA al c4 / 2) ::
      (unA al c4 % 2 * 128 + unA al c5 * 4 + unA al c6 / 8) ::
      (unA al c6 % 8 * 32 + unA al c7) :: b32d al r
  | _ => []

theorem b32_rt (al : List Char) (hu : ∀ i, i < 32 → unA al (chA al i) = i)
    (hne : ∀ i, i < 32 → chA al i ≠ '=') :
    ∀ l, (∀ a ∈ l, a < 256) → b32d al (b32e al l) = l := by
  have main : ∀ (n : Nat) (l : List Nat), l.length ≤ n →
      (∀ a ∈ l, a < 256) → b32d al (b32e al l) = l := by
    intro n
    induction n with
    | zero =>
      intro l hl _
      rw [List.eq_nil_of_length_eq_zero (Nat.le_zero.mp hl)]
      rfl
    | succ n ih =>
      intro l hl hb
      match l with
      | [] => rfl
      | [a] =>
        have ha : a < 256 := hb a (by simp)
        simp only [b32e, b32d]
        rw [if_true, hu _ (by omega), hu _ (by omega)]
        simp only [List.cons.injEq, and_true]
        omega
      | [a, b] =>
        have ha : a < 256 := hb a (by simp)
        have hb2 : b < 256 := hb b (by simp)
        simp only [b32e, b32d]
        rw [if_neg (hne _ (by omega)), if_true, hu _ (by omega),
          hu _ (by omega), hu _ (by omega), hu _ (by omega)]
        simp only [List.cons.injEq, and_true]
        omega
      | [a, b, c] =>
        have ha : a < 256 := hb a (by simp)
        have hb2 : b < 256 := hb b (by simp)
        have hc : c < 256 := hb c (by simp)
        simp only [b32e, b32d]
        rw [if_neg (hne _ (by omega)), if_neg (hne _ (by omega)), if_true,
          hu _ (by omega), hu _ (by omega), hu _ (by omega), hu _ (by omega),
          hu _ (by omega)]
        simp only [List.cons.injEq, and_true]
        omega
      | [a, b, c, d] =>
        have ha : a < 256 := hb a (by simp)
        have hb2 : b < 256 := hb b (by simp)
        have hc : c < 256 := hb c (by simp)
        have hd : d < 256 := hb d (by simp)
        simp only [b32e, b32d]
        rw [if_neg (hne _ (by omega)), if_neg (hne _ (by omega)),
          if_neg (hne _ (by omega)), if_true, hu _ (by omega),
          hu _ (by omega), hu _ (by omega), hu _ (by omega), hu _ (by omega),
          hu _ (by omega), hu _ (by omega)]
        simp only [List.cons.injEq, and_true]
        omega
      | a :: b :: c :: d :: e :: r =>
        have ha : a < 256 := hb a (by simp)
        have hb2 : b < 256 := hb b (by simp)
        have hc : c < 256 := hb c (by simp)
        have hd : d < 256 := hb d (by simp)
        have he : e < 256 := hb e (by simp)
        simp only [b32e, b32d]
        rw [if_neg (hne _ (by omega)), if_neg (hne _ (by omega)),
          if_neg (hne _ (by omega)), if_neg (hne _ (by omega)),
          hu _ (by omega), hu _ (by omega), hu _ (by omega), hu _ (by omega),
          hu _ (by omega), hu _ (by omega), hu _ (by omega), hu _ (by omega)]
        rw [ih r (by simp at hl; omega) (fun x hx => hb x (by simp [hx]))]
        simp only [List.cons.injEq, and_true]
        omega
  intro l
  exact main l.length l (le_refl _)

/-- `base64.a85encode` / `b85encode`: 4-byte groups, read as a 32-bit
big-endian number, become 5 base-85 digits; a final group of r bytes is
zero-extended and only its first r+1 digits are kept; with `foldz` (the
ascii85 `foldnuls` behavior) an all-zero full group becomes `z`. -/
def e85 (f : Nat → Char) (foldz : Bool) : List Nat → List Char
  | [] => []
  | [a] =>
    let V := a * 16777216
    [f (V / 52200625), f (V / 614125 % 85)]
  | [a, b] =>
    let V := a * 16777216 + b * 65536
    [f (V / 52200625), f (V / 614125 % 85), f (V / 7225 % 85)]
  | [a, b, c] =>
    let V := a * 16777216 + b * 65536 + c * 256
    [f (V / 52200625), f (V / 614125 % 85), f (V / 7225 % 85),
     f (V / 85 % 85)]
  | a :: b :: c :: d :: r =>
    let V := a * 16777216 + b * 65536 + c * 256 + d
    if foldz ∧ V = 0 then 'z' :: e85 f foldz r
    else
      f (V / 52200625) :: f (V / 614125 % 85) :: f (V / 7225 % 85) ::
      f (V / 85 % 85) :: f (V % 85) :: e85 f foldz r

mutual

/-- Decoder for `e85`. -/
def d85 (u : Char → Nat) (foldz : Bool) : List Char → List Nat
  | [] => []
  | c0 :: rest =>
    if foldz ∧ c0 = 'z' then 0 :: 0 :: 0 :: 0 :: d85 u foldz rest
    else d85p u foldz c0 rest
termination_by l => l.length

/-- Decoder for one non-`z` group of `e85`, after its first character. -/
def d85p (u : Char → Nat) (foldz : Bool) (c0 : Char) : List Char → List Nat
  | [] => []
  | [c1] => [((u c0 * 85 + u c1) * 614125 + 16777215) / 16777216]
  | [c1, c2] =>
    let N := ((u c0 * 7225 + u c1 * 85 + u c2) * 7225 + 65535) / 65536
    [N / 256, N % 256]
  | [c1, c2, c3] =>
    let N := ((u c0 * 614125 + u c1 * 7225 + u c2 * 85 + u c3) * 85
      + 255) / 256
    [N / 65536, N / 256 % 256, N % 256]
  | c1 :: c2 :: c3 :: c4 :: r2 =>
    let V := u c0 * 52200625 + u c1 * 614125 + u c2 * 7225 + u c3 * 85
      + u c4
    V / 16777216 :: V / 65536 % 256 :: V / 256 % 256 :: V % 256 ::
    d85 u foldz r2
termination_by l => l.length

end

theorem e85_rt (f : Nat → Char) (u : Char → Nat) (foldz : Bool)
    (hu : ∀ i, i < 85 → u (f i) = i)
    (hz : foldz = true → ∀ i, i < 85 → f i ≠ 'z') :
    ∀ l, (∀ a ∈ l, a < 256) → d85 u foldz (e85 f foldz l) = l := by
  have hz2 : ∀ i, i < 85 → ¬((foldz = true) ∧ f i = 'z') :=
    fun i hi h => hz h.1 i hi h.2
  have main : ∀ (n : Nat) (l : List Nat), l.length ≤ n →
      (∀ a ∈ l, a < 256) → d85 u foldz (e85 f foldz l) = l := by
    intro n
    induction n with
    | zero =>
      intro l hl _
      rw [List.eq_nil_of_length_eq_zero (Nat.le_zero.mp hl)]
      simp [e85, d85]
    | succ n ih =>
      intro l hl hb
      match l with
      | [] => simp [e85, d85]
      | [a] =>
        have ha : a < 256 := hb a (by simp)
        simp only [e85, d85]
        rw [if_neg (hz2 _ (by omega))]
        simp only [d85p]
        rw [hu _ (by omega), hu _ (by omega)]
        have hA : a * 16777216 / 52200625
            = a * 16777216 / 85 / 85 / 85 / 85 := by
          simp [Nat.div_div_eq_div_mul]
        have hB : a * 16777216 / 614125 = a * 16777216 / 85 / 85 / 85 := by
          simp [Nat.div_div_eq_div_mul]
        rw [hA, hB]
        clear hA hB
        simp only [List.cons.injEq, and_true]
        omega
      | [a, b] =>
        have ha : a < 256 := hb a (by simp)
        have hb2 : b < 256 := hb b (by simp)
        simp only [e85, d85]
        rw [if_neg (hz2 _ (by omega))]
        simp only [d85p]
        rw [hu _ (by omega), hu _ (by omega), hu _ (by omega)]
        have hA : (a * 16777216 + b * 65536) / 52200625
            = (a * 16777216 + b * 65536) / 85 / 85 / 85 / 85 := by
          simp [Nat.div_div_eq_div_mul]
        have hB : (a * 16777216 + b * 65536) / 614125
            = (a * 16777216 + b * 65536) / 85 / 85 / 85 := by
          simp [Nat.div_div_eq_div_mul]
        have hC2 : (a * 16777216 + b * 65536) / 7225
            = (a * 16777216 + b * 65536) / 85 / 85 := by
          simp [Nat.div_div_eq_div_mul]
        rw [hA, hB, hC2]
        clear hA hB hC2
        have hE : (a * 16777216 + b * 65536) / 85 / 85 / 85 / 85 * 7225
            + (a * 16777216 + b * 65536) / 85 / 85 / 85 % 85 * 85
            + (a * 16777216 + b * 65536) / 85 / 85 % 85
            = (a * 16777216 + b * 65536) / 85 / 85 := by omega
        rw [hE]
        have hN : ((a * 16777216 + b * 65536) / 85 / 85 * 7225 + 65535)
            / 65536 = 256 * a + b := by
          apply Nat.div_eq_of_lt_le <;> omega
        rw [hN]
        simp only [List.cons.injEq, and_true]
        omega
      | [a, b, c] =>
        have ha : a < 256 := hb a (by simp)
        have hb2 : b < 256 := hb b (by simp)
        have hc : c < 256 := hb c (by simp)
        simp only [e85, d85]
        rw [if_neg (hz2 _ (by omega))]
        simp only [d85p]
        rw [hu _ (by omega), hu _ (by omega), hu _ (by omega), hu _ (by omega)]
        have hA : (a * 16777216 + b * 65536 + c * 256) / 52200625
            = (a * 16777216 + b * 65536 + c * 256) / 85 / 85 / 85 / 85 := by
          simp [Nat.div_div_eq_div_mul]
        have hB : (a * 16777216 + b * 65536 + c * 256) / 614125
            = (a * 16777216 + b * 65536 + c * 256) / 85 / 85 / 85 := by
          simp [Nat.div_div_eq_div_mul]
        have hC2 : (a * 16777216 + b * 65536 + c * 256) / 7225
            = (a * 16777216 + b * 65536 + c * 256) / 85 / 85 := by
          simp [Nat.div_div_eq_div_mul]
        have hD : (a * 16777216 + b * 65536 + c * 256) / 85
            = (a * 16777216 + b * 65536 + c * 256) / 85 := rfl
        rw [hA, hB, hC2]
        clear hA hB hC2 hD
        have hE : (a * 16777216 + b * 65536 + c * 256) / 85 / 85 / 85 / 85
              * 614125
            + (a * 16777216 + b * 65536 + c * 256) / 85 / 85 / 85 % 85 * 7225
            + (a * 16777216 + b * 65536 + c * 256) / 85 / 85 % 85 * 85
            + (a * 16777216 + b * 65536 + c * 256) / 85 % 85
            = (a * 16777216 + b * 65536 + c * 256) / 85 := by omega
        rw [hE]
        have hN : ((a * 16777216 + b * 65536 + c * 256) / 85 * 85 + 255)
            / 256 = 65536 * a + 256 * b + c := by
          apply Nat.div_eq_of_lt_le <;> omega
        rw [hN]
        simp only [List.cons.injEq, and_true]
        omega
      | a :: b :: c :: d :: r =>
        have ha : a < 256 := hb a (by simp)
        have hb2 : b < 256 := hb b (by simp)
        have hc : c < 256 := hb c (by simp)
        have hd : d < 256 := hb d (by simp)
        have hrec := ih r (by simp at hl; omega) (fun x hx => hb x (by simp [hx]))
        by_cases hV : (foldz = true)
            ∧ (a * 16777216 + b * 65536 + c * 256 + d = 0)
        · obtain ⟨hf, hV0⟩ := hV
          subst hf
          simp only [e85]
          rw [if_pos (And.intro trivial hV0)]
          simp only [d85, and_self, if_true]
          rw [hrec]
          simp only [List.cons.injEq, and_true, true_and]
          omega
        · simp only [e85]
          rw [if_neg hV]
          simp only [d85]
          rw [if_neg (hz2 _ (by omega))]
          simp only [d85p]
          rw [hu _ (by omega), hu _ (by omega),
            hu _ (by omega), hu _ (by omega), hu _ (by omega), hrec]
          have hA : (a * 16777216 + b * 65536 + c * 256 + d) / 52200625
              = (a * 16777216 + b * 65536 + c * 256 + d)
                / 85 / 85 / 85 / 85 := by
            simp [Nat.div_div_eq_div_mul]
          have hB : (a * 16777216 + b * 65536 + c * 256 + d) / 614125
              = (a * 16777216 + b * 65536 + c * 256 + d) / 85 / 85 / 85 := by
            simp [Nat.div_div_eq_div_mul]
          have hC2 : (a * 16777216 + b * 65536 + c * 256 + d) / 7225
              = (a * 16777216 + b * 65536 + c * 256 + d) / 85 / 85 := by
            simp [Nat.div_div_eq_div_mul]
          rw [hA, hB, hC2]
          clear hA hB hC2
          have hE : (a * 16777216 + b * 65536 + c * 256 + d) / 85 / 85 / 85
                / 85 * 52200625
              + (a * 16777216 + b * 65536 + c * 256 + d) / 85 / 85 / 85 % 85
                * 614125
              + (a * 16777216 + b * 65536 + c * 256 + d) / 85 / 85 % 85 * 7225
              + (a * 16777216 + b * 65536 + c * 256 + d) / 85 % 85 * 85
              + (a * 16777216 + b * 65536 + c * 256 + d) % 85
              = a * 16777216 + b * 65536 + c * 256 + d := by omega
          rw [hE]
          have hN1 : (a * 16777216 + b * 65536 + c * 256 + d) / 16777216
              = a := by
            apply Nat.div_eq_of_lt_le <;> omega
          have hN2 : (a * 16777216 + b * 65536 + c * 256 + d) / 65536
              = 256 * a + b := by
            apply Nat.div_eq_of_lt_le <;> omega
          have hN3 : (a * 16777216 + b * 65536 + c * 256 + d) / 256
              = 65536 * a + 256 * b + c := by
            apply Nat.div_eq_of_lt_le <;> omega
          rw [hN1, hN2, hN3]
          clear hE hN1 hN2 hN3
          simp only [List.cons.injEq, and_true, true_and]
          omega
  intro l
  exact main l.length l (le_refl _)

/-- The encoding methods of `AutoPrefixedCache._METHODS`. -/
inductive EncMethod where
  | b64
  | b64u
  | b32
  | b32x
  | b16
  | a85
  | b85
deriving DecidableEq, Repr

/-- `AutoPrefixedCache._METHODS[method]`, composed with `.decode("ASCII")`
(the encoders produce ASCII, so decoding is reading off the characters). -/
def encodeM : EncMethod → List Nat → List Char
  | .b64 => b64e alphaB64
  | .b64u => b64e alphaB64u
  | .b32 => b32e alphaB32
  | .b32x => b32e alphaB32x
  | .b16 => b16e alphaB16
  | .a85 => e85 a85ch true
  | .b85 => e85 (chA alphaB85) false

/-- Decoder for `encodeM`. -/
def decodeM : EncMethod → List Char → List Nat
  | .b64 => b64d alphaB64
  | .b64u => b64d alphaB64u
  | .b32 => b32d alphaB32
  | .b32x => b32d alphaB32x
  | .b16 => b16d alphaB16
  | .a85 => d85 a85un true
  | .b85 => d85 (unA alphaB85) false

theorem decodeM_encodeM (m : EncMethod) (l : List Nat)
    (hb : ∀ a ∈ l, a < 256) : decodeM m (encodeM m l) = l := by
  cases m with
  | b64 => exact b64_rt alphaB64 (by decide) (by decide) l hb
  | b64u => exact b64_rt alphaB64u (by decide) (by decide) l hb
  | b32 => exact b32_rt alphaB32 (by decide) (by decide) l hb
  | b32x => exact b32_rt alphaB32x (by decide) (by decide) l hb
  | b16 => exact b16_rt alphaB16 (by decide) l hb
  | a85 => exact e85_rt a85ch a85un true (by decide) (fun _ => by decide) l hb
  | b85 =>
    exact e85_rt (chA alphaB85) (unA alphaB85) false (by decide)
      (fun h => Bool.noConfusion h) l hb

/-- `int.bit_length()`, fuel-based so that it evaluates by reduction. -/
def bitLenAux : Nat → Nat → Nat
  | _, 0 => 0
  | 0, _ + 1 => 0
  | fuel + 1, n + 1 => bitLenAux fuel ((n + 1) / 2) + 1

/-- `int.bit_length()`: the number of binary digits. -/
def bitLength (n : Nat) : Nat := bitLenAux n n

theorem bitLenAux_lt : ∀ fuel n, n ≤ fuel → n < 2 ^ bitLenAux fuel n := by
  intro fuel
  induction fuel with
  | zero =>
    intro n hn
    match n, hn with
    | 0, _ => exact Nat.zero_lt_one
  | succ fuel ih =>
    intro n hn
    match n with
    | 0 => exact Nat.zero_lt_one
    | m + 1 =>
      have h2 : (m + 1) / 2 ≤ fuel := by omega
      have := ih ((m + 1) / 2) h2
      simp only [bitLenAux]
      rw [pow_succ]
      omega

theorem bitLength_lt (n : Nat) : n < 2 ^ bitLength n :=
  bitLenAux_lt n n (le_refl n)

/-- Big-endian value of a byte string. -/
def fromBytes (l : List Nat) : Nat := l.foldl (fun acc b => acc * 256 + b) 0

/-- `n.to_bytes(L, byteorder="big")`. -/
def toBytesBE : Nat → Nat → List Nat
  | _, 0 => []
  | n, L + 1 => toBytesBE (n / 256) L ++ [n % 256]

theorem fromBytes_append (A : List Nat) (b : Nat) :
    fromBytes (A ++ [b]) = fromBytes A * 256 + b := by
  simp [fromBytes, List.foldl_append]

theorem fromBytes_toBytesBE : ∀ L n, n < 256 ^ L →
    fromBytes (toBytesBE n L) = n := by
  intro L
  induction L with
  | zero =>
    intro n h
    simp only [pow_zero, Nat.lt_one_iff] at h
    simp [h, toBytesBE, fromBytes]
  | succ L ih =>
    intro n h
    rw [pow_succ] at h
    rw [toBytesBE, fromBytes_append, ih (n / 256) (by omega)]
    omega

theorem toBytesBE_bytes : ∀ L n, ∀ a ∈ toBytesBE n L, a < 256 := by
  intro L
  induction L with
  | zero =>
    intro n a ha
    simp [toBytesBE] at ha
  | succ L ih =>
    intro n a ha
    simp only [toBytesBE, List.mem_append, List.mem_singleton] at ha
    rcases ha with ha | ha
    · exact ih _ a ha
    · omega

/-- The byte rendering of the counter in `AutoPrefixedCache.__init__`:
`_COUNTER.to_bytes(max(1, (_COUNTER.bit_length() + 7) // 8), "big")`. -/
def counterBytes (n : Nat) : List Nat :=
  toBytesBE n (max 1 ((bitLength n + 7) / 8))

theorem counterBytes_lt (n : Nat) :
    n < 256 ^ max 1 ((bitLength n + 7) / 8) := by
  have h1 : n < 2 ^ bitLength n := bitLength_lt n
  have h3 : bitLength n ≤ 8 * ((bitLength n + 7) / 8) := by omega
  have h4 : 8 * ((bitLength n + 7) / 8)
      ≤ 8 * max 1 ((bitLength n + 7) / 8) :=
    Nat.mul_le_mul_left 8 (Nat.le_max_right _ _)
  have h2 : (2 : Nat) ^ bitLength n
      ≤ 2 ^ (8 * max 1 ((bitLength n + 7) / 8)) :=
    Nat.pow_le_pow_right (by norm_num) (le_trans h3 h4)
  have h5 : (2 : Nat) ^ (8 * max 1 ((bitLength n + 7) / 8))
      = 256 ^ max 1 ((bitLength n + 7) / 8) := by
    rw [pow_mul]
    norm_num
  omega

theorem counterBytes_inj {n1 n2 : Nat}
    (h : counterBytes n1 = counterBytes n2) : n1 = n2 := by
  have e1 := fromBytes_toBytesBE _ n1 (counterBytes_lt n1)
  have e2 := fromBytes_toBytesBE _ n2 (counterBytes_lt n2)
  rw [← e1, ← e2]
  unfold counterBytes at h
  rw [h]

/-- The prefix an `AutoPrefixedCache` computes from counter value `n`:
`encoder(counter bytes).decode("ASCII") + sep`. -/
def autoPrefix (m : EncMethod) (sep : List Char) (n : Nat) : List Char :=
  encodeM m (counterBytes n) ++ sep

/-- A sequence of `AutoPrefixedCache` constructions: each draws the
current value of the process-wide `_COUNTER` and increments it. -/
def autoPrefixes : List (EncMethod × List Char) → Nat → List (List Char)
  | [], _ => []
  | (m, s) :: cfgs, n => autoPrefix m s n :: autoPrefixes cfgs (n + 1)

theorem autoPrefix_inj (m : EncMethod) (sep : List Char) {n1 n2 : Nat}
    (h : autoPrefix m sep n1 = autoPrefix m sep n2) : n1 = n2 := by
  apply counterBytes_inj
  have h2 : encodeM m (counterBytes n1) = encodeM m (counterBytes n2) :=
    List.append_cancel_right h
  have e1 := decodeM_encodeM m (counterBytes n1) (toBytesBE_bytes _ n1)
  have e2 := decodeM_encodeM m (counterBytes n2) (toBytesBE_bytes _ n2)
  rw [← e1, ← e2, h2]

theorem autoPrefixes_replicate_mem (m : EncMethod) (sep : List Char) :
    ∀ (N start : Nat) (x : List Char),
      x ∈ autoPrefixes (List.replicate N (m, sep)) start →
      ∃ i, i < N ∧ x = autoPrefix m sep (start + i) := by
  intro N
  induction N with
  | zero =>
    intro start x hx
    simp [autoPrefixes] at hx
  | succ N ih =>
    intro start x hx
    simp only [List.replicate_succ, autoPrefixes, List.mem_cons] at hx
    rcases hx with hx | hx
    · exact ⟨0, by omega, by simpa using hx⟩
    · rcases ih (start + 1) x hx with ⟨i, hi, hx2⟩
      have harg : start + 1 + i = start + (i + 1) := by omega
      exact ⟨i + 1, by omega, by rw [hx2, harg]⟩

/-- Claim C8 (amended): N `AutoPrefixedCache` instances created in one
process with the same encoding method and the same separator receive N
pairwise distinct prefixes, wherever the shared `_COUNTER` starts: each
construction draws a fresh counter value, never reused, and for a fixed
method and separator the prefix is injective in the counter. -/
theorem C8_auto_prefix_distinct (m : EncMethod) (sep : List Char)
    (N start : Nat) :
    (autoPrefixes (List.replicate N (m, sep)) start).Pairwise (· ≠ ·) := by
  induction N generalizing start with
  | zero => simp [autoPrefixes]
  | succ N ih =>
    simp only [List.replicate_succ, autoPrefixes]
    refine List.Pairwise.cons ?_ (ih (start + 1))
    intro y hy heq
    rcases autoPrefixes_replicate_mem m sep N (start + 1) y hy
      with ⟨i, hi, hy2⟩
    rw [hy2] at heq
    have := autoPrefix_inj m sep heq
    omega

theorem autoPrefixes_length :
    ∀ (cfgs : List (EncMethod × List Char)) (start : Nat),
      (autoPrefixes cfgs start).length = cfgs.length := by
  intro cfgs
  induction cfgs with
  | nil => intro start; rfl
  | cons c cfgs ih =>
    rcases c with ⟨m, s⟩
    intro start
    simp [autoPrefixes, ih]

/-- A creation sequence refuting C8 as stated: 171 instances, the first
with method "b64" and separator ".", the 171st with method "b16" and
separator "==.", the rest defaults. -/
def cexCfgs : List (EncMethod × List Char) :=
  (List.replicate 171 (EncMethod.b64, ['.'])).set 170
    (EncMethod.b16, ['=', '=', '.'])

set_option maxRecDepth 8000 in
/-- Counterexample for C8 as stated: with mixed (yet valid) encoding
methods and separators the prefixes need not be distinct — counter 0 under
b64 with separator "." and counter 170 under b16 with separator "==."
both yield the prefix "AA==.", so the 171 prefixes are not pairwise
distinct. -/
theorem C8_auto_prefix_cex :
    ¬ (autoPrefixes cexCfgs 0).Pairwise (· ≠ ·) := by
  decide

end CTU
